import Mathlib

/-!
Verification development for the rust_core parsing library
(src/rust_core/src/parsing.rs, config_parsing.rs, lib.rs).

The Rust source is shallowly embedded below.  External collaborators
(the tree-sitter grammar engine, the serde_json / serde_yaml / toml
value parsers and serializers, rayon) are modelled as explicit inputs:
an `ExternalWorld` record of deterministic functions standing for the
library calls.  Everything written in the repository itself (dispatch,
extension handling, unit construction, the line heuristic, batch
collection, the vector helpers) is translated directly from the source.
-/

/-! ## Rust string primitives

Models of the `str` methods the source uses: `lines`, `trim`,
`contains`, `starts_with`.  `linesAux` splits at `\n` or `\r\n`
exactly as Rust's `str::lines` does (a final line ending is optional,
a lone `\r` is not a line break).  `rustTrim` strips whitespace from
both ends; Rust trims Unicode `White_Space`, of which the ASCII subset
handled by `Char.isWhitespace` is the fragment relevant here.
-/

def linesAux : List Char → List (List Char)
  | [] => []
  | '\r' :: '\n' :: rest => [] :: linesAux rest
  | '\n' :: rest => [] :: linesAux rest
  | c :: rest =>
    match linesAux rest with
    | [] => [[c]]
    | p :: ps => (c :: p) :: ps

def rustLines (s : String) : List String :=
  (linesAux s.data).map (fun cs => String.mk cs)

def rustTrim (s : String) : String :=
  String.mk (((s.data.dropWhile Char.isWhitespace).reverse.dropWhile Char.isWhitespace).reverse)

def isPrefixB : List Char → List Char → Bool
  | [], _ => true
  | _ :: _, [] => false
  | a :: as, b :: bs => a == b && isPrefixB as bs

def isInfixB (needle : List Char) : List Char → Bool
  | [] => needle.isEmpty
  | h :: t => isPrefixB needle (h :: t) || isInfixB needle t

/-- Model of Rust `str::contains` (substring search). -/
def strContains (hay needle : String) : Bool :=
  isInfixB needle.data hay.data

/-- Model of Rust `str::starts_with(char)`. -/
def startsWithChar (s : String) (c : Char) : Bool :=
  match s.data with
  | [] => false
  | h :: _ => h == c

def joinNl : List String → String
  | [] => ""
  | [l] => l
  | l :: rest => l ++ "\n" ++ joinNl rest

def splitOnChar (sep : Char) : List Char → List (List Char)
  | [] => [[]]
  | c :: rest =>
    if c = sep then [] :: splitOnChar sep rest
    else
      match splitOnChar sep rest with
      | [] => [[c]]
      | p :: ps => (c :: p) :: ps

/-- Model of `std::path::Path::extension` for Unix paths: the last
component of the path (skipping empty and `.` components), split at its
final dot; `none` when there is no dot, when the only dot is the
leading one (dotfiles), or when the last component is `..`. -/
def path_extension (path : String) : Option String :=
  let comps := (splitOnChar '/' path.data).filter (fun c => !(c.isEmpty || c == ['.']))
  match comps.getLast? with
  | none => none
  | some name =>
    if name == ['.', '.'] then none
    else
      match splitOnChar '.' name with
      | [] => none
      | [_] => none
      | p :: ps =>
        if p.isEmpty && ps.length == 1 then none
        else (ps.getLast?).map (fun cs => String.mk cs)

/-! ## Data model (parsing.rs lines 260-319) -/

/-- `SemanticUnit` from parsing.rs.  `parse_time_ms` of `ParseResult`
is a wall-clock measurement; timing is outside the model and the field
is carried as a constant. -/
structure SemanticUnit where
  unit_type : String
  name : String
  start_line : Nat
  end_line : Nat
  start_byte : Nat
  end_byte : Nat
  signature : String
  content : String
  language : String
deriving DecidableEq, Repr

structure ParseResult where
  file_path : String
  language : String
  units : List SemanticUnit
  parse_time_ms : Nat
deriving DecidableEq, Repr

def mkParseResult (fp lang : String) (us : List SemanticUnit) : ParseResult :=
  { file_path := fp, language := lang, units := us, parse_time_ms := 0 }

/-! ## Supported languages (parsing.rs lines 7-58) -/

inductive SupportedLanguage where
  | Python | JavaScript | TypeScript | Java | Go | Rust | Ruby
  | C | Cpp | CSharp | Sql | Php
deriving DecidableEq, Repr

def SupportedLanguage.from_extension (ext : String) : Option SupportedLanguage :=
  match ext with
  | "py" => some .Python
  | "js" | "jsx" | "mjs" => some .JavaScript
  | "ts" | "tsx" => some .TypeScript
  | "java" => some .Java
  | "go" => some .Go
  | "rs" => some .Rust
  | "rb" => some .Ruby
  | "c" => some .C
  | "cpp" | "cc" | "cxx" | "hpp" | "h" | "hxx" | "hh" => some .Cpp
  | "cs" => some .CSharp
  | "sql" => some .Sql
  | "php" => some .Php
  | _ => none

/-- `format!("\x7b:?\x7d", lang)`: the Debug name of the variant. -/
def langName : SupportedLanguage → String
  | .Python => "Python"
  | .JavaScript => "JavaScript"
  | .TypeScript => "TypeScript"
  | .Java => "Java"
  | .Go => "Go"
  | .Rust => "Rust"
  | .Ruby => "Ruby"
  | .C => "C"
  | .Cpp => "Cpp"
  | .CSharp => "CSharp"
  | .Sql => "Sql"
  | .Php => "Php"

/-! ## External value trees

Value models for the external structured-data libraries.  JSON values
use a mutual inductive (so the pretty-printer below is structurally
recursive); numbers are modelled as integers, which covers every value
the claims exercise.  YAML and TOML values are only inspected at the
top level by the source, so plain nested lists suffice there.
-/

mutual
inductive JsonValue where
  | null : JsonValue
  | jbool : Bool → JsonValue
  | jnum : Int → JsonValue
  | jstr : String → JsonValue
  | jarr : JsonElems → JsonValue
  | jobj : JsonMembers → JsonValue
inductive JsonElems where
  | nil : JsonElems
  | cons : JsonValue → JsonElems → JsonElems
inductive JsonMembers where
  | mnil : JsonMembers
  | mcons : String → JsonValue → JsonMembers → JsonMembers
end

def JsonMembers.toList : JsonMembers → List (String × JsonValue)
  | .mnil => []
  | .mcons k v rest => (k, v) :: rest.toList

inductive YamlValue where
  | ynull : YamlValue
  | ybool : Bool → YamlValue
  | ynum : Int → YamlValue
  | ystr : String → YamlValue
  | yseq : List YamlValue → YamlValue
  | ymap : List (YamlValue × YamlValue) → YamlValue

/-- The key of a YAML mapping entry, when it is a string. -/
def yamlKeyStr : YamlValue → Option String
  | .ystr s => some s
  | _ => none

inductive TomlValue where
  | tstr : String → TomlValue
  | tint : Int → TomlValue
  | tbool : Bool → TomlValue
  | tarr : List TomlValue → TomlValue
  | ttable : List (String × TomlValue) → TomlValue

def TomlValue.is_table : TomlValue → Bool
  | .ttable _ => true
  | _ => false

/-! ## serde_json pretty printer

Model of `serde_json::to_string_pretty` (the `PrettyFormatter` with
two-space indentation).  It cannot fail on a value tree, so the
`[complex object]` fallback in `format_json_section` is unreachable.
-/

def mkSpaces : Nat → String
  | 0 => ""
  | n + 1 => " " ++ mkSpaces n

def hexDigit (n : Nat) : String :=
  if n < 10 then String.mk [Char.ofNat (48 + n)]
  else String.mk [Char.ofNat (87 + n)]

def jsonEscapeChar (c : Char) : String :=
  if c = '"' then "\\\""
  else if c = '\\' then "\\\\"
  else if c = '\n' then "\\n"
  else if c = '\r' then "\\r"
  else if c = '\t' then "\\t"
  else if c.toNat = 8 then "\\b"
  else if c.toNat = 12 then "\\f"
  else if c.toNat < 32 then "\\u00" ++ hexDigit (c.toNat / 16) ++ hexDigit (c.toNat % 16)
  else String.mk [c]

def jsonEscape (s : String) : String :=
  s.data.foldl (fun acc c => acc ++ jsonEscapeChar c) ""

mutual
def jsonPretty (ind : Nat) : JsonValue → String
  | .null => "null"
  | .jbool b => if b then "true" else "false"
  | .jnum n => toString n
  | .jstr s => "\"" ++ jsonEscape s ++ "\""
  | .jarr .nil => "[]"
  | .jarr (.cons v rest) =>
    "[\n" ++ jsonElemsPretty (ind + 2) (JsonElems.cons v rest) ++ "\n" ++ mkSpaces ind ++ "]"
  | .jobj .mnil => "\x7b\x7d"
  | .jobj (.mcons k v rest) =>
    "\x7b\n" ++ jsonMembersPretty (ind + 2) (JsonMembers.mcons k v rest) ++ "\n" ++ mkSpaces ind ++ "\x7d"
def jsonElemsPretty (ind : Nat) : JsonElems → String
  | .nil => ""
  | .cons v .nil => mkSpaces ind ++ jsonPretty ind v
  | .cons v (.cons v2 rest) =>
    mkSpaces ind ++ jsonPretty ind v ++ ",\n" ++ jsonElemsPretty ind (JsonElems.cons v2 rest)
def jsonMembersPretty (ind : Nat) : JsonMembers → String
  | .mnil => ""
  | .mcons k v .mnil => mkSpaces ind ++ "\"" ++ jsonEscape k ++ "\": " ++ jsonPretty ind v
  | .mcons k v (.mcons k2 v2 rest) =>
    mkSpaces ind ++ "\"" ++ jsonEscape k ++ "\": " ++ jsonPretty ind v ++ ",\n"
      ++ jsonMembersPretty ind (JsonMembers.mcons k2 v2 rest)
end

/-! ## The external world

All calls the source makes into external libraries, bundled as
deterministic functions.  `ts_parse` tells whether the tree-sitter
parser produced a tree for the file; `fn_matches` / `cls_matches`
stand for `Query::new` followed by `QueryCursor::captures` for the
language's function and class patterns (`Except.error` = the query
failed to compile, `ok ms` = the ordered match list).  Each match
exposes its captured nodes; `text` is the node's `utf8_text` slice of
the source (`none` = invalid UTF-8 slice).
-/

structure TSNode where
  start_row : Nat
  end_row : Nat
  start_byte : Nat
  end_byte : Nat
  text : Option String
deriving DecidableEq, Repr

structure TSMatch where
  captures : List TSNode
deriving DecidableEq, Repr

structure ExternalWorld where
  json_parse : String → Except String JsonValue
  yaml_parse : String → Except String YamlValue
  toml_parse : String → Except String TomlValue
  yaml_ser : YamlValue → Except String String
  toml_ser : TomlValue → Except String String
  ts_parse : SupportedLanguage → String → Bool
  fn_matches : SupportedLanguage → String → Except String (List TSMatch)
  cls_matches : SupportedLanguage → String → Except String (List TSMatch)

/-! ## Config section extractor (config_parsing.rs) -/

/-- One step of the `for (idx, line)` search loop: index of the first
line satisfying `p`, starting the count at `i`. -/
def firstIdxAux (p : String → Bool) : List String → Nat → Option Nat
  | [], _ => none
  | l :: rest, i => if p l then some i else firstIdxAux p rest (i + 1)

/-- The break condition of the inner loop of `find_key_lines`
(config_parsing.rs line 114): a line that does not start with a space
or tab and is not blank. -/
def isTopLevel (l : String) : Bool :=
  !(startsWithChar l ' ') && !(startsWithChar l '\t') && !(rustTrim l == "")

/-- The inner `for i in (idx + 1)..lines.len()` loop of
`find_key_lines`: `i` is the current index, the last argument is the
running value of `end`. -/
def scanEndAux : List String → Nat → Nat → Nat
  | [], _, endAcc => endAcc
  | l :: rest, i, _ => if isTopLevel l then i else scanEndAux rest (i + 1) (i + 1)

/-- `find_key_lines` (config_parsing.rs lines 102-126).  `lines` of
the source is written out as `rustLines source` at each use. -/
def find_key_lines (source key : String) : Nat × Nat :=
  match firstIdxAux (fun l => strContains l key) (rustLines source) 0 with
  | some idx =>
    (idx + 1, scanEndAux ((rustLines source).drop (idx + 1)) (idx + 1) (idx + 1))
  | none => (1, (rustLines source).length)

/-- `find_key_lines` as the specification words it: `start_line` is the
1-indexed first line containing the key as a substring; `end_line` is
the line immediately before the next top-level line (non-blank, not
starting with a space or tab — "non-empty" is read as "carries
non-whitespace text", since a blank line cannot start the next
top-level entry), or the last scanned line when no such line follows;
`(1, total line count)` when the key occurs nowhere. -/
def find_key_lines_spec (source key : String) : Nat × Nat :=
  match firstIdxAux (fun l => strContains l key) (rustLines source) 0 with
  | some idx =>
    (idx + 1,
      match firstIdxAux isTopLevel ((rustLines source).drop (idx + 1)) (idx + 1) with
      | some i => i
      | none => (rustLines source).length)
  | none => (1, (rustLines source).length)

/-- `format_json_section` (config_parsing.rs lines 128-134).  The raw
key is interpolated between literal quotes; the value is re-serialized
with `serde_json::to_string_pretty`, which cannot fail here. -/
def format_json_section (key : String) (value : JsonValue) : String :=
  "\"" ++ key ++ "\": " ++ jsonPretty 0 value

/-- `format_yaml_section` (config_parsing.rs lines 136-150). -/
def format_yaml_section (w : ExternalWorld) (key : String) (value : YamlValue) : String :=
  match w.yaml_ser value with
  | .ok yaml_str =>
    let indented := joinNl ((rustLines yaml_str).map
      (fun line => if line == "" then line else "  " ++ line))
    key ++ ":\n" ++ indented
  | .error _ => key ++ ": [complex object]"

/-- `format_toml_section` (config_parsing.rs lines 152-164). -/
def format_toml_section (w : ExternalWorld) (key : String) (value : TomlValue) : String :=
  match w.toml_ser value with
  | .ok toml_str =>
    if value.is_table then "[" ++ key ++ "]\n" ++ toml_str
    else key ++ " = " ++ rustTrim toml_str
  | .error _ => "[" ++ key ++ "]\n[complex section]"

/-- The `SemanticUnit` each config parser pushes: identical record
shape in `parse_json`, `parse_yaml` and `parse_toml` (`end_byte` is
the byte length of the synthesized content, not a source offset). -/
def mkConfigUnit (source lang key content : String) : SemanticUnit :=
  let se := find_key_lines source key
  { unit_type := "class", name := key, start_line := se.1, end_line := se.2,
    start_byte := 0, end_byte := content.utf8ByteSize, signature := key,
    content := content, language := lang }

/-- `parse_json` (config_parsing.rs lines 8-37). -/
def parse_json (w : ExternalWorld) (_file_path source : String) :
    Except String (List SemanticUnit) :=
  match w.json_parse source with
  | .error e => .error ("JSON parse error: " ++ e)
  | .ok parsed =>
    .ok (match parsed with
      | .jobj kvs =>
        kvs.toList.map (fun kv => mkConfigUnit source "Json" kv.1 (format_json_section kv.1 kv.2))
      | _ => [])

/-- `parse_yaml` (config_parsing.rs lines 40-69): entries whose key is
not a string are passed over by the `if let` without any effect. -/
def parse_yaml (w : ExternalWorld) (_file_path source : String) :
    Except String (List SemanticUnit) :=
  match w.yaml_parse source with
  | .error e => .error ("YAML parse error: " ++ e)
  | .ok parsed =>
    .ok (match parsed with
      | .ymap kvs =>
        kvs.filterMap (fun kv =>
          match yamlKeyStr kv.1 with
          | some key => some (mkConfigUnit source "Yaml" key (format_yaml_section w key kv.2))
          | none => none)
      | _ => [])

/-- `parse_toml` (config_parsing.rs lines 72-99). -/
def parse_toml (w : ExternalWorld) (_file_path source : String) :
    Except String (List SemanticUnit) :=
  match w.toml_parse source with
  | .error e => .error ("TOML parse error: " ++ e)
  | .ok parsed =>
    .ok (match parsed with
      | .ttable kvs =>
        kvs.map (fun kv => mkConfigUnit source "Toml" kv.1 (format_toml_section w kv.1 kv.2))
      | _ => [])

/-- `parse_config_file` (config_parsing.rs lines 166-191). -/
def parse_config_file (w : ExternalWorld) (file_path source : String) :
    Except String ParseResult :=
  match path_extension file_path with
  | none => .error "No file extension"
  | some ext =>
    if ext = "json" then
      match parse_json w file_path source with
      | .error e => .error e
      | .ok us => .ok (mkParseResult file_path "Json" us)
    else if ext = "yaml" ∨ ext = "yml" then
      match parse_yaml w file_path source with
      | .error e => .error e
      | .ok us => .ok (mkParseResult file_path "Yaml" us)
    else if ext = "toml" then
      match parse_toml w file_path source with
      | .error e => .error e
      | .ok us => .ok (mkParseResult file_path "Toml" us)
    else .error ("Unsupported config file extension: " ++ ext)

/-! ## Structural extractor (parsing.rs lines 321-468) -/

/-- The body of the capture loops in `CodeParser::parse_file`
(lines 392-414 and 429-451): take the first captured node of the
match, derive `name` as the trimmed first line of its `utf8_text`
(`"<unknown>"` when the slice is not valid UTF-8), duplicate it into
`signature`, and record the node's spans. -/
def mkUnitFromMatch (utype lang : String) (m : TSMatch) : Option SemanticUnit :=
  match m.captures.head? with
  | none => none
  | some node =>
    let name := rustTrim ((rustLines (node.text.getD "<unknown>")).headD "")
    some { unit_type := utype, name := name,
           start_line := node.start_row + 1, end_line := node.end_row + 1,
           start_byte := node.start_byte, end_byte := node.end_byte,
           signature := name, content := node.text.getD "",
           language := lang }

/-- One pattern kind of `CodeParser::parse_file`: a failed
`Query::new` is logged and yields zero units for that kind; a
successful one yields one unit per match that has a capture. -/
def matchUnits (mres : Except String (List TSMatch)) (utype lang : String) :
    List SemanticUnit :=
  match mres with
  | .error _ => []
  | .ok ms => ms.filterMap (mkUnitFromMatch utype lang)

/-- `CodeParser::parse_file` (parsing.rs lines 355-468).  The parser
pool of `CodeParser::new` holds an entry for every language, so the
`"Parser not found"` branch is unreachable and is not modelled. -/
def parse_file (w : ExternalWorld) (file_path source : String) :
    Except String ParseResult :=
  match path_extension file_path with
  | none => .error "No file extension"
  | some ext =>
    match SupportedLanguage.from_extension ext with
    | none => .error ("Unsupported file extension: " ++ ext)
    | some lang =>
      if w.ts_parse lang source then
        .ok (mkParseResult file_path (langName lang)
          (matchUnits (w.fn_matches lang source) "function" (langName lang)
            ++ matchUnits (w.cls_matches lang source) "class" (langName lang)))
      else .error "Failed to parse file"

/-! ## Dispatcher and batch orchestrator (parsing.rs lines 471-517) -/

/-- `matches!(extension, "json" | "yaml" | "yml" | "toml")`. -/
def isConfigExt (ext : String) : Bool :=
  ext = "json" || ext = "yaml" || ext = "yml" || ext = "toml"

/-- `parse_source_file` (parsing.rs lines 472-491).  The source binds
`extension = path.extension().unwrap_or("")` first; the binding is
inlined. -/
def parse_source_file (w : ExternalWorld) (file_path source : String) :
    Except String ParseResult :=
  if isConfigExt ((path_extension file_path).getD "") then
    parse_config_file w file_path source
  else parse_file w file_path source

/-- `collect::<Result<Vec<ParseResult>, String>>()` over the per-file
results: fail-fast, first error wins, order preserved.  rayon's
parallel `collect` into `Result` has exactly these all-or-nothing and
order-preserving semantics (which error is reported is scheduling
dependent only when several items fail at once). -/
def collectResults : List (Except String ParseResult) → Except String (List ParseResult)
  | [] => .ok []
  | r :: rest =>
    match r with
    | .error e => .error e
    | .ok pr =>
      match collectResults rest with
      | .error e => .error e
      | .ok prs => .ok (pr :: prs)

/-- `batch_parse_files` (parsing.rs lines 494-517).  The closure the
source maps over the items repeats the dispatch logic of
`parse_source_file` verbatim, so it is modelled by that function. -/
def batch_parse_files (w : ExternalWorld) (files : List (String × String)) :
    Except String (List ParseResult) :=
  collectResults (files.map (fun fc => parse_source_file w fc.1 fc.2))

/-! ## Vector helpers (lib.rs lines 12-53)

`f32` arithmetic is modelled exactly over `ℚ`, with the square root —
not rational-valued — supplied as an explicit function `sqrtf`
standing for `f32::sqrt`.  The properties proved about
`cosine_similarity` are arithmetic-independent: which branch runs and
which formula is returned.
-/

def dot_product (a b : List ℚ) : ℚ :=
  ((a.zip b).map (fun p => p.1 * p.2)).foldl (· + ·) 0

def sum_squares (a : List ℚ) : ℚ :=
  ((a.map (fun x => x * x)).foldl (· + ·) 0)

/-- `cosine_similarity` (lib.rs lines 36-53).  The source computes
`dot_product` and the two norms into locals before the zero test;
they are pure, so the bindings are inlined here. -/
def cosine_similarity (sqrtf : ℚ → ℚ) (vec_a vec_b : List ℚ) : Except String ℚ :=
  if vec_a.length ≠ vec_b.length then .error "Vectors must have the same length"
  else if sqrtf (sum_squares vec_a) = 0 ∨ sqrtf (sum_squares vec_b) = 0 then .ok 0
  else .ok (dot_product vec_a vec_b / (sqrtf (sum_squares vec_a) * sqrtf (sum_squares vec_b)))

/-! ## Concrete sample data

Closed instances of the external world and sample inputs, used to
instantiate the theorems below on concrete runs.
-/

/-- A world in which every external parser fails and every query
compiles to an empty match list. -/
def trivialWorld : ExternalWorld :=
  { json_parse := fun _ => .error "syntax error",
    yaml_parse := fun _ => .error "syntax error",
    toml_parse := fun _ => .error "syntax error",
    yaml_ser := fun _ => .error "ser error",
    toml_ser := fun _ => .error "ser error",
    ts_parse := fun _ _ => true,
    fn_matches := fun _ _ => .ok [],
    cls_matches := fun _ _ => .ok [] }

/-- World whose TOML parser yields an empty top-level table. -/
def wTomlEmpty : ExternalWorld :=
  { trivialWorld with toml_parse := fun _ => .ok (TomlValue.ttable []) }

/-- The batch of three files from the spec scenario: file 2 has an
unsupported extension. -/
def c1files : List (String × String) :=
  [("a.toml", "x = 1"), ("b.xyz", "y"), ("c.toml", "z = 2")]

/-- The JSON scenario input `\x7b"a":1,"b":\x7b"c":2\x7d\x7d`. -/
def c4src : String := "\x7b\"a\":1,\"b\":\x7b\"c\":2\x7d\x7d"

/-- Its parse: a two-member object in document order. -/
def c4val : JsonValue :=
  .jobj (.mcons "a" (.jnum 1) (.mcons "b" (.jobj (.mcons "c" (.jnum 2) .mnil)) .mnil))

def wJsonScen : ExternalWorld :=
  { trivialWorld with json_parse := fun _ => .ok c4val }

/-- TOML config with one table-valued and one scalar-valued entry. -/
def c5val : TomlValue :=
  .ttable [("s", .ttable [("x", .tint 1)]), ("n", .tint 2)]

def wToml5 : ExternalWorld :=
  { trivialWorld with
    toml_parse := fun _ => .ok c5val,
    toml_ser := fun v => if v.is_table then .ok "x = 1\n" else .ok "2" }

/-- YAML mapping with two string keys and one integer key. -/
def c6val : YamlValue :=
  .ymap [(.ystr "a", .ynull), (.ynum 1, .ynull), (.ystr "b", .ynull)]

def wYaml6 : ExternalWorld :=
  { trivialWorld with
    yaml_parse := fun _ => .ok c6val,
    yaml_ser := fun _ => .ok "null\n" }

def wYaml7 : ExternalWorld :=
  { trivialWorld with
    yaml_parse := fun _ => .ok (.ymap [(.ystr "a", .ynum 1)]),
    yaml_ser := fun _ => .ok "1\n" }

/-- The unit `parse_source_file wYaml7 "a.yaml" "a: 1"` emits. -/
def c7unit : SemanticUnit :=
  mkConfigUnit "a: 1" "Yaml" "a" (format_yaml_section wYaml7 "a" (.ynum 1))

/-- A tree-sitter match whose first capture spans a two-line Python
function definition. -/
def c2match : TSMatch :=
  { captures := [{ start_row := 0, end_row := 1, start_byte := 0, end_byte := 17,
                   text := some "def foo():\n  pass" }] }

/-- The unit the capture loop builds from `c2match`. -/
def c2unit : SemanticUnit :=
  { unit_type := "function", name := "def foo():", start_line := 1, end_line := 2,
    start_byte := 0, end_byte := 17, signature := "def foo():",
    content := "def foo():\n  pass", language := "Python" }

/-- Rational "square root" stand-in for witnesses: the identity. -/
def idSqrt : ℚ → ℚ := fun q => q

/-! ## Helper lemmas -/

theorem linesAux_ne_nil : ∀ (cs : List Char), cs ≠ [] → linesAux cs ≠ [] := by
  intro cs h
  rw [linesAux.eq_def]
  split
  · exact absurd rfl h
  · exact List.cons_ne_nil _ _
  · exact List.cons_ne_nil _ _
  · split
    · exact List.cons_ne_nil _ _
    · exact List.cons_ne_nil _ _

theorem rustLines_ne_nil (s : String) (h : s ≠ "") : rustLines s ≠ [] := by
  have hd : s.data ≠ [] := by
    intro hdnil
    apply h
    cases s with
    | mk data => subst hdnil; rfl
  intro hnil
  unfold rustLines at hnil
  exact linesAux_ne_nil _ hd (List.map_eq_nil_iff.mp hnil)

theorem firstIdxAux_bounds (p : String → Bool) :
    ∀ (ls : List String) (i0 idx : Nat),
      firstIdxAux p ls i0 = some idx → i0 ≤ idx ∧ idx < i0 + ls.length := by
  intro ls
  induction ls with
  | nil => intro i0 idx h; simp [firstIdxAux] at h
  | cons l rest ih =>
    intro i0 idx h
    simp only [firstIdxAux] at h
    by_cases hp : p l
    · rw [if_pos hp] at h
      injection h with h'
      subst h'
      simp
    · rw [if_neg hp] at h
      have := ih (i0 + 1) idx h
      simp only [List.length_cons]
      omega

theorem scanEndAux_eq : ∀ (rest : List String) (i : Nat),
    scanEndAux rest i i =
      (match firstIdxAux isTopLevel rest i with
       | some j => j
       | none => i + rest.length) := by
  intro rest
  induction rest with
  | nil => intro i; simp [scanEndAux, firstIdxAux]
  | cons l rest ih =>
    intro i
    by_cases hp : isTopLevel l
    · simp [scanEndAux, firstIdxAux, hp]
    · simp only [scanEndAux, firstIdxAux, if_neg hp]
      rw [ih (i + 1)]
      cases h : firstIdxAux isTopLevel rest (i + 1) with
      | some j => rfl
      | none =>
        have harith : i + 1 + rest.length = i + (rest.length + 1) := by omega
        simpa using harith

theorem scanEndAux_ge : ∀ (rest : List String) (i acc : Nat),
    i ≤ acc → i ≤ scanEndAux rest i acc := by
  intro rest
  induction rest with
  | nil => intro i acc h; simpa [scanEndAux] using h
  | cons l rest ih =>
    intro i acc h
    by_cases hp : isTopLevel l
    · simp [scanEndAux, hp]
    · simp only [scanEndAux, if_neg hp]
      exact le_trans (Nat.le_succ i) (ih (i + 1) (i + 1) (le_refl _))

theorem find_key_lines_le (source key : String) (h : source ≠ "") :
    (find_key_lines source key).1 ≤ (find_key_lines source key).2 := by
  unfold find_key_lines
  cases hf : firstIdxAux (fun l => strContains l key) (rustLines source) 0 with
  | none =>
    have h1 : rustLines source ≠ [] := rustLines_ne_nil source h
    have h2 : 0 < (rustLines source).length := List.length_pos.mpr h1
    simpa using h2
  | some idx =>
    simpa using scanEndAux_ge ((rustLines source).drop (idx + 1)) (idx + 1) (idx + 1) (le_refl _)

/-- C3: `find_key_lines` computes exactly what the specification
describes: `start_line` is the 1-indexed first line containing the key
as a substring; `end_line` is the line immediately before the next
top-level line (non-blank, not starting with a space or tab), or the
last scanned line when none qualifies; `(1, total line count)` when no
line contains the key. -/
theorem c3_find_key_lines_matches_spec (source key : String) :
    find_key_lines source key = find_key_lines_spec source key := by
  unfold find_key_lines find_key_lines_spec
  cases hf : firstIdxAux (fun l => strContains l key) (rustLines source) 0 with
  | none => rfl
  | some idx =>
    have hb := firstIdxAux_bounds _ _ _ _ hf
    show (idx + 1, scanEndAux ((rustLines source).drop (idx + 1)) (idx + 1) (idx + 1))
      = (idx + 1,
          match firstIdxAux isTopLevel ((rustLines source).drop (idx + 1)) (idx + 1) with
          | some i => i
          | none => (rustLines source).length)
    rw [scanEndAux_eq]
    cases ht : firstIdxAux isTopLevel ((rustLines source).drop (idx + 1)) (idx + 1) with
    | some j => rfl
    | none =>
      show (idx + 1, (idx + 1) + ((rustLines source).drop (idx + 1)).length)
        = (idx + 1, (rustLines source).length)
      rw [List.length_drop]
      exact congrArg (Prod.mk (idx + 1)) (by omega)

/-- C9: `cosine_similarity` fails with the length-mismatch error
exactly when the lengths differ; with equal lengths it returns `0`
when either computed norm is zero and the dot product over the norm
product otherwise. -/
theorem c9_cosine_similarity_contract (sqrtf : ℚ → ℚ) (a b : List ℚ) :
    (cosine_similarity sqrtf a b = .error "Vectors must have the same length"
      ↔ a.length ≠ b.length)
    ∧ (a.length = b.length →
        ((sqrtf (sum_squares a) = 0 ∨ sqrtf (sum_squares b) = 0) →
          cosine_similarity sqrtf a b = .ok 0)
        ∧ (sqrtf (sum_squares a) ≠ 0 → sqrtf (sum_squares b) ≠ 0 →
          cosine_similarity sqrtf a b =
            .ok (dot_product a b
              / (sqrtf (sum_squares a) * sqrtf (sum_squares b))))) := by
  unfold cosine_similarity
  by_cases hlen : a.length = b.length
  · rw [if_neg (fun hc => hc hlen)]
    constructor
    · constructor
      · intro h
        by_cases hn : sqrtf (sum_squares a) = 0 ∨ sqrtf (sum_squares b) = 0
        · rw [if_pos hn] at h; exact absurd h (by simp)
        · rw [if_neg hn] at h; exact absurd h (by simp)
      · intro h; exact absurd hlen h
    · intro _
      constructor
      · intro hn; rw [if_pos hn]
      · intro ha hb
        rw [if_neg (by intro hor; rcases hor with h | h; exact ha h; exact hb h)]
  · rw [if_pos hlen]
    constructor
    · exact ⟨fun _ => hlen, fun _ => rfl⟩
    · intro h; exact absurd h hlen

/-- C9 witness: a concrete length mismatch and a concrete zero-norm
input, through `c9_cosine_similarity_contract`. -/
theorem c9_cosine_similarity_contract_witness :
    cosine_similarity idSqrt [1, 2] [3] = .error "Vectors must have the same length"
    ∧ cosine_similarity idSqrt [0, 0] [1, 1] = .ok 0 := by
  constructor
  · exact (c9_cosine_similarity_contract idSqrt [1, 2] [3]).1.mpr (by decide)
  · exact ((c9_cosine_similarity_contract idSqrt [0, 0] [1, 1]).2 (by decide)).1
      (Or.inl (by norm_num [idSqrt, sum_squares]))

theorem collectResults_all_ok (l : List (Except String ParseResult))
    (h : ∀ x ∈ l, ∃ r, x = .ok r) :
    ∃ rs, collectResults l = .ok rs ∧ rs.length = l.length := by
  induction l with
  | nil => exact ⟨[], rfl, rfl⟩
  | cons x rest ih =>
    obtain ⟨r, hr⟩ := h x (List.mem_cons_self x rest)
    obtain ⟨rs, hrs, hlen⟩ := ih (fun y hy => h y (List.mem_cons_of_mem x hy))
    subst hr
    exact ⟨r :: rs, by simp [collectResults, hrs], by simp [hlen]⟩

theorem collectResults_error_at (l : List (Except String ParseResult))
    (i : Nat) (e : String) (hi : i < l.length)
    (he : l.get ⟨i, hi⟩ = .error e)
    (hok : ∀ j (hj : j < l.length), j ≠ i → ∃ r, l.get ⟨j, hj⟩ = .ok r) :
    collectResults l = .error e := by
  induction l generalizing i with
  | nil => exact absurd hi (by simp)
  | cons x rest ih =>
    cases i with
    | zero =>
      have hx : x = .error e := he
      simp [collectResults, hx]
    | succ k =>
      obtain ⟨r, hr⟩ := hok 0 (by simp) (by omega)
      have hx : x = .ok r := hr
      have hk : k < rest.length := by
        have := hi; simp only [List.length_cons] at this; omega
      have hrest : collectResults rest = .error e := by
        apply ih k hk
        · exact he
        · intro j hj hne
          exact hok (j + 1) (by simp only [List.length_cons]; omega) (by omega)
      simp [collectResults, hx, hrest]

theorem collectResults_ok_get (l : List (Except String ParseResult))
    (rs : List ParseResult) (h : collectResults l = .ok rs) :
    rs.length = l.length ∧ ∀ i (h1 : i < l.length) (h2 : i < rs.length),
      l.get ⟨i, h1⟩ = .ok (rs.get ⟨i, h2⟩) := by
  induction l generalizing rs with
  | nil =>
    have : rs = [] := by
      have h' : Except.ok ([] : List ParseResult) = Except.ok rs := h
      injection h' with h''
      exact h''.symm
    subst this
    exact ⟨rfl, fun i h1 _ => absurd h1 (by simp)⟩
  | cons x rest ih =>
    simp only [collectResults] at h
    cases hx : x with
    | error e => rw [hx] at h; simp at h
    | ok pr =>
      rw [hx] at h
      cases hr : collectResults rest with
      | error e => rw [hr] at h; simp at h
      | ok prs =>
        rw [hr] at h
        simp only [] at h
        injection h with h'
        subst h'
        obtain ⟨hlen, hget⟩ := ih prs hr
        constructor
        · simp [hlen]
        · intro i h1 h2
          cases i with
          | zero => rfl
          | succ k =>
            exact hget k (by simp only [List.length_cons] at h1; omega)
              (by simp only [List.length_cons] at h2; omega)

theorem parse_config_file_fp (w : ExternalWorld) (fp source : String)
    (r : ParseResult) (h : parse_config_file w fp source = .ok r) :
    r.file_path = fp := by
  unfold parse_config_file at h
  split at h
  · simp at h
  · split at h
    · split at h
      · simp at h
      · injection h with h'; subst h'; rfl
    · split at h
      · split at h
        · simp at h
        · injection h with h'; subst h'; rfl
      · split at h
        · split at h
          · simp at h
          · injection h with h'; subst h'; rfl
        · simp at h

theorem parse_file_fp (w : ExternalWorld) (fp source : String)
    (r : ParseResult) (h : parse_file w fp source = .ok r) :
    r.file_path = fp := by
  unfold parse_file at h
  split at h
  · simp at h
  · split at h
    · simp at h
    · split at h
      · injection h with h'; subst h'; rfl
      · simp at h

theorem parse_source_file_fp (w : ExternalWorld) (fp source : String)
    (r : ParseResult) (h : parse_source_file w fp source = .ok r) :
    r.file_path = fp := by
  unfold parse_source_file at h
  split at h
  · exact parse_config_file_fp w fp source r h
  · exact parse_file_fp w fp source r h

/-- C1: the batch call is fail-fast and all-or-nothing.  When every
item dispatches successfully the batch returns one `ParseResult` per
item; when one item fails and the rest succeed, the batch returns
exactly that item's error and no result list at all. -/
theorem c1_batch_fail_fast (w : ExternalWorld) (files : List (String × String)) :
    ((∀ fc ∈ files, ∃ r, parse_source_file w fc.1 fc.2 = .ok r) →
      ∃ rs, batch_parse_files w files = .ok rs ∧ rs.length = files.length)
    ∧ (∀ i e (hi : i < files.length),
        parse_source_file w (files.get ⟨i, hi⟩).1 (files.get ⟨i, hi⟩).2 = .error e →
        (∀ j (hj : j < files.length), j ≠ i →
          ∃ r, parse_source_file w (files.get ⟨j, hj⟩).1 (files.get ⟨j, hj⟩).2 = .ok r) →
        batch_parse_files w files = .error e) := by
  constructor
  · intro hall
    unfold batch_parse_files
    obtain ⟨rs, hrs, hlen⟩ := collectResults_all_ok _ (by
      intro x hx
      obtain ⟨fc, hfc, rfl⟩ := List.mem_map.mp hx
      exact hall fc hfc)
    exact ⟨rs, hrs, by simpa using hlen⟩
  · intro i e hi he hok
    unfold batch_parse_files
    apply collectResults_error_at _ i e (by simpa using hi)
    · rw [List.get_map]
      exact he
    · intro j hj hne
      rw [List.get_map]
      exact hok j (by simpa using hj) hne

/-- C1 witness: the spec's three-file scenario — the second file has
an unsupported extension, the whole batch returns exactly its error. -/
theorem c1_batch_fail_fast_witness :
    batch_parse_files wTomlEmpty c1files = .error "Unsupported file extension: xyz" := by
  have h := (c1_batch_fail_fast wTomlEmpty c1files).2 1
    "Unsupported file extension: xyz" (by decide) rfl
  apply h
  intro j hj hne
  have hj3 : j < 3 := by simpa [c1files] using hj
  interval_cases j
  · exact ⟨_, rfl⟩
  · exact absurd rfl hne
  · exact ⟨_, rfl⟩

/-- C10: a successful batch returns as many results as inputs, in
input order: the i-th result's `file_path` is the i-th input's path. -/
theorem c10_batch_order (w : ExternalWorld) (files : List (String × String))
    (rs : List ParseResult) (h : batch_parse_files w files = .ok rs) :
    rs.length = files.length ∧ ∀ i (h1 : i < rs.length) (h2 : i < files.length),
      (rs.get ⟨i, h1⟩).file_path = (files.get ⟨i, h2⟩).1 := by
  unfold batch_parse_files at h
  obtain ⟨hlen, hget⟩ := collectResults_ok_get _ rs h
  constructor
  · simpa using hlen
  · intro i h1 h2
    have := hget i (by simpa using h2) h1
    rw [List.get_map] at this
    exact parse_source_file_fp w _ _ _ this

/-- Inputs for the C10 witness: two well-formed TOML files. -/
def c10files : List (String × String) := [("a.toml", "x = 1"), ("c.toml", "z = 2")]

/-- C10 witness: a concrete two-file batch preserves length and input
order, through `c10_batch_order`. -/
theorem c10_batch_order_witness :
    ([mkParseResult "a.toml" "Toml" [], mkParseResult "c.toml" "Toml" []].length
        = c10files.length)
    ∧ ([mkParseResult "a.toml" "Toml" [], mkParseResult "c.toml" "Toml" []].get
        ⟨1, by decide⟩).file_path = (c10files.get ⟨1, by decide⟩).1 := by
  have h := c10_batch_order wTomlEmpty c10files
    [mkParseResult "a.toml" "Toml" [], mkParseResult "c.toml" "Toml" []] rfl
  exact ⟨h.1, h.2 1 (by decide) (by decide)⟩

/-- C4: on a JSON config whose top-level value is an object,
`parse_json` emits one unit per member in document order, with
`content` = the quoted key, a colon and space, and the pretty-printed
value; a non-object top level yields zero units; and the scenario
input yields exactly the two units the spec lists. -/
theorem c4_json_sections :
    (∀ (w : ExternalWorld) (fp source : String) (kvs : JsonMembers),
      w.json_parse source = .ok (.jobj kvs) →
      ∃ us, parse_json w fp source = .ok us ∧
        us.length = kvs.toList.length ∧
        ∀ i (h1 : i < us.length) (h2 : i < kvs.toList.length),
          (us.get ⟨i, h1⟩).name = (kvs.toList.get ⟨i, h2⟩).1 ∧
          (us.get ⟨i, h1⟩).content =
            "\"" ++ (kvs.toList.get ⟨i, h2⟩).1 ++ "\": "
              ++ jsonPretty 0 (kvs.toList.get ⟨i, h2⟩).2)
    ∧ (∀ (w : ExternalWorld) (fp source : String) (v : JsonValue),
        w.json_parse source = .ok v → (∀ kvs, v ≠ .jobj kvs) →
        parse_json w fp source = .ok [])
    ∧ parse_json wJsonScen "config.json" c4src = .ok
        [mkConfigUnit c4src "Json" "a" "\"a\": 1",
         mkConfigUnit c4src "Json" "b" "\"b\": \x7b\n  \"c\": 2\n\x7d"] := by
  refine ⟨?_, ?_, ?_⟩
  · intro w fp source kvs h
    refine ⟨kvs.toList.map
      (fun kv => mkConfigUnit source "Json" kv.1 (format_json_section kv.1 kv.2)),
      by unfold parse_json; rw [h], by simp, ?_⟩
    intro i h1 h2
    rw [List.get_map]
    exact ⟨rfl, rfl⟩
  · intro w fp source v h hne
    unfold parse_json
    rw [h]
    cases v with
    | jobj kvs => exact absurd rfl (hne kvs)
    | null => rfl
    | jbool b => rfl
    | jnum n => rfl
    | jstr s => rfl
    | jarr xs => rfl
  · rfl

/-- C4 witness: the scenario conjunct of `c4_json_sections`, plus its
object-case conjunct instantiated on the scenario world. -/
theorem c4_json_sections_witness :
    parse_json wJsonScen "config.json" c4src = .ok
      [mkConfigUnit c4src "Json" "a" "\"a\": 1",
       mkConfigUnit c4src "Json" "b" "\"b\": \x7b\n  \"c\": 2\n\x7d"] :=
  c4_json_sections.2.2

/-- C5: on a TOML config whose top-level value is a table,
`parse_toml` emits one unit per entry whose `content` comes from
`format_toml_section`, and whenever the external serializer succeeds
that content is `[key]` + newline + the re-serialized table for table
values, and `key = ` + the (trimmed) re-serialized scalar otherwise. -/
theorem c5_toml_sections (w : ExternalWorld) (fp source : String) :
    (∀ kvs : List (String × TomlValue),
      w.toml_parse source = .ok (.ttable kvs) →
      ∃ us, parse_toml w fp source = .ok us ∧ us.length = kvs.length ∧
        ∀ i (h1 : i < us.length) (h2 : i < kvs.length),
          (us.get ⟨i, h1⟩).content =
            format_toml_section w (kvs.get ⟨i, h2⟩).1 (kvs.get ⟨i, h2⟩).2)
    ∧ (∀ (key : String) (value : TomlValue) (s : String),
        w.toml_ser value = .ok s →
        format_toml_section w key value =
          if value.is_table then "[" ++ key ++ "]\n" ++ s
          else key ++ " = " ++ rustTrim s) := by
  constructor
  · intro kvs h
    refine ⟨kvs.map
      (fun kv => mkConfigUnit source "Toml" kv.1 (format_toml_section w kv.1 kv.2)),
      by unfold parse_toml; rw [h], by simp, ?_⟩
    intro i h1 h2
    rw [List.get_map]
    rfl
  · intro key value s hs
    unfold format_toml_section
    rw [hs]

/-- C5 witness: a table-valued and a scalar-valued entry rendered
through `c5_toml_sections`, plus the per-entry unit list on a concrete
table. -/
theorem c5_toml_sections_witness :
    format_toml_section wToml5 "s" (TomlValue.ttable [("x", TomlValue.tint 1)]) = "[s]\nx = 1\n"
    ∧ format_toml_section wToml5 "n" (TomlValue.tint 2) = "n = 2"
    ∧ ∃ us, parse_toml wToml5 "f.toml" "src" = .ok us ∧ us.length = 2 := by
  refine ⟨?_, ?_, ?_⟩
  · exact ((c5_toml_sections wToml5 "f.toml" "src").2 "s"
      (TomlValue.ttable [("x", TomlValue.tint 1)]) "x = 1\n" rfl).trans rfl
  · exact ((c5_toml_sections wToml5 "f.toml" "src").2 "n"
      (TomlValue.tint 2) "2" rfl).trans rfl
  · obtain ⟨us, h1, h2, _⟩ := (c5_toml_sections wToml5 "f.toml" "src").1
      [("s", TomlValue.ttable [("x", TomlValue.tint 1)]), ("n", TomlValue.tint 2)] rfl
    exact ⟨us, h1, by rw [h2]; rfl⟩

/-- C6: on a YAML config whose top-level value is a mapping,
`parse_yaml` succeeds and emits exactly one unit per string-keyed
entry, in order; entries with non-string keys are skipped without any
error. -/
theorem c6_yaml_string_keys (w : ExternalWorld) (fp source : String)
    (kvs : List (YamlValue × YamlValue))
    (h : w.yaml_parse source = .ok (.ymap kvs)) :
    ∃ us, parse_yaml w fp source = .ok us ∧
      us.map (fun u => u.name) = kvs.filterMap (fun kv => yamlKeyStr kv.1) ∧
      us.length = (kvs.filterMap (fun kv => yamlKeyStr kv.1)).length := by
  have hmap : (kvs.filterMap (fun kv =>
      match yamlKeyStr kv.1 with
      | some key => some (mkConfigUnit source "Yaml" key (format_yaml_section w key kv.2))
      | none => none)).map (fun u => u.name)
      = kvs.filterMap (fun kv => yamlKeyStr kv.1) := by
    rw [List.map_filterMap]
    congr 1
    funext kv
    cases hk : yamlKeyStr kv.1 with
    | none => rfl
    | some key => simp [mkConfigUnit]
  refine ⟨_, by unfold parse_yaml; rw [h], hmap, ?_⟩
  have := congrArg List.length hmap
  simpa using this

/-- C6 witness: a mapping with two string keys and one integer key
emits exactly the two string-keyed units, via `c6_yaml_string_keys`. -/
theorem c6_yaml_string_keys_witness :
    ∃ us, parse_yaml wYaml6 "f.yaml" "src" = .ok us ∧
      us.map (fun u => u.name) = ["a", "b"] ∧ us.length = 2 := by
  obtain ⟨us, h1, h2, h3⟩ := c6_yaml_string_keys wYaml6 "f.yaml" "src"
    [(.ystr "a", .ynull), (.ynum 1, .ynull), (.ystr "b", .ynull)] rfl
  exact ⟨us, h1, by rw [h2]; rfl, by rw [h3]; rfl⟩

theorem mem_matchUnits (mres : Except String (List TSMatch)) (utype lang : String)
    (u : SemanticUnit) (h : u ∈ matchUnits mres utype lang) :
    ∃ ms m node, mres = .ok ms ∧ m ∈ ms ∧ m.captures.head? = some node ∧
      mkUnitFromMatch utype lang m = some u := by
  unfold matchUnits at h
  cases hres : mres with
  | error e => rw [hres] at h; simp at h
  | ok ms =>
    rw [hres] at h
    obtain ⟨m, hm, hmk⟩ := List.mem_filterMap.mp h
    cases hc : m.captures.head? with
    | none =>
      exfalso
      unfold mkUnitFromMatch at hmk
      rw [hc] at hmk
      simp at hmk
    | some node => exact ⟨ms, m, node, rfl, hm, hc, hmk⟩

theorem mkUnitFromMatch_fields (utype lang : String) (m : TSMatch) (node : TSNode)
    (u : SemanticUnit) (hc : m.captures.head? = some node)
    (hmk : mkUnitFromMatch utype lang m = some u) :
    u.name = rustTrim ((rustLines (node.text.getD "<unknown>")).headD "")
    ∧ u.signature = u.name ∧ u.content = node.text.getD ""
    ∧ u.start_line = node.start_row + 1 ∧ u.end_line = node.end_row + 1 := by
  unfold mkUnitFromMatch at hmk
  rw [hc] at hmk
  injection hmk with h'
  subst h'
  exact ⟨rfl, rfl, rfl, rfl, rfl⟩

/-- C2: every unit emitted by the structural extractor takes its
`name` from the trimmed first line of the matched node's source text
— not from the identifier capture — and `signature` duplicates it. -/
theorem c2_first_line_name :
    (∀ (w : ExternalWorld) (path source : String) (res : ParseResult),
      parse_file w path source = .ok res →
      ∀ u ∈ res.units, u.signature = u.name ∧
        ∃ (m : TSMatch) (node : TSNode), m.captures.head? = some node ∧
          u.name = rustTrim ((rustLines (node.text.getD "<unknown>")).headD "") ∧
          u.content = node.text.getD "")
    ∧ (∀ (utype lang : String) (m : TSMatch) (u : SemanticUnit),
        mkUnitFromMatch utype lang m = some u →
        ∃ (node : TSNode), m.captures.head? = some node ∧
          u.name = rustTrim ((rustLines (node.text.getD "<unknown>")).headD "") ∧
          u.signature = u.name) := by
  constructor
  · intro w path source res h u hu
    unfold parse_file at h
    split at h
    · simp at h
    · split at h
      · simp at h
      · split at h
        · injection h with h'
          subst h'
          simp only [mkParseResult] at hu
          rcases List.mem_append.mp hu with h1 | h1
          all_goals
            obtain ⟨ms, m, node, hres, hm, hc, hmk⟩ := mem_matchUnits _ _ _ _ h1
          all_goals
            obtain ⟨hn, hsig, hcont, _, _⟩ := mkUnitFromMatch_fields _ _ _ _ _ hc hmk
          all_goals exact ⟨hsig, m, node, hc, hn, hcont⟩
        · simp at h
  · intro utype lang m u hmk
    have h := mem_matchUnits (Except.ok [m]) utype lang u (by
      unfold matchUnits
      exact List.mem_filterMap.mpr ⟨m, List.mem_singleton.mpr rfl, hmk⟩)
    obtain ⟨ms, m2, node, hres, hm2, hc, hmk2⟩ := h
    have hms : ms = [m] := by injection hres with h'; exact h'.symm
    subst hms
    have hm2m : m2 = m := List.mem_singleton.mp hm2
    subst hm2m
    obtain ⟨hn, hsig, _, _, _⟩ := mkUnitFromMatch_fields utype lang m2 node u hc hmk2
    exact ⟨node, hc, hn, hsig⟩

/-- C2 witness: the capture loop on a concrete two-line Python match,
through `c2_first_line_name`. -/
theorem c2_first_line_name_witness :
    ∃ node, c2match.captures.head? = some node ∧
      c2unit.name = rustTrim ((rustLines (node.text.getD "<unknown>")).headD "") ∧
      c2unit.signature = c2unit.name :=
  c2_first_line_name.2 "function" "Python" c2match c2unit rfl

/-- C8: a path with no extension fails with the one consistent
missing-extension error on both the code and the config paths, and an
extension unknown to both the language registry and the config
dispatch fails with the unsupported-extension errors. -/
theorem c8_extension_errors (w : ExternalWorld) (path source ext : String) :
    (path_extension path = none →
      parse_source_file w path source = .error "No file extension"
      ∧ parse_config_file w path source = .error "No file extension")
    ∧ (path_extension path = some ext → isConfigExt ext = false →
        SupportedLanguage.from_extension ext = none →
        parse_source_file w path source = .error ("Unsupported file extension: " ++ ext)
        ∧ parse_config_file w path source
            = .error ("Unsupported config file extension: " ++ ext)) := by
  constructor
  · intro hpe
    constructor
    · simp [parse_source_file, hpe, isConfigExt, parse_file]
    · simp [parse_config_file, hpe]
  · intro hpe hcfg hfe
    have h1 : ¬ ext = "json" := by intro hh; rw [hh] at hcfg; simp [isConfigExt] at hcfg
    have h2 : ¬ ext = "yaml" := by intro hh; rw [hh] at hcfg; simp [isConfigExt] at hcfg
    have h3 : ¬ ext = "yml" := by intro hh; rw [hh] at hcfg; simp [isConfigExt] at hcfg
    have h4 : ¬ ext = "toml" := by intro hh; rw [hh] at hcfg; simp [isConfigExt] at hcfg
    constructor
    · simp [parse_source_file, hpe, hcfg, parse_file, hfe]
    · simp [parse_config_file, hpe, h1, h2, h3, h4]

/-- C8 witness: a dotless path and an `.xyz` path, through
`c8_extension_errors`. -/
theorem c8_extension_errors_witness :
    parse_source_file trivialWorld "README" "x" = .error "No file extension"
    ∧ parse_source_file trivialWorld "a.xyz" "x" = .error "Unsupported file extension: xyz" := by
  constructor
  · exact ((c8_extension_errors trivialWorld "README" "x" "").1 rfl).1
  · exact ((c8_extension_errors trivialWorld "a.xyz" "x" "xyz").2 rfl rfl rfl).1

theorem parse_json_le (w : ExternalWorld) (fp source : String) (hs : source ≠ "")
    (us : List SemanticUnit) (h : parse_json w fp source = .ok us) :
    ∀ u ∈ us, u.start_line ≤ u.end_line := by
  unfold parse_json at h
  cases hjp : w.json_parse source with
  | error e => rw [hjp] at h; simp at h
  | ok parsed =>
    rw [hjp] at h
    injection h with h'
    intro u hu
    rw [← h'] at hu
    cases parsed with
    | jobj kvs =>
      obtain ⟨kv, _, rfl⟩ := List.mem_map.mp hu
      simpa [mkConfigUnit] using find_key_lines_le source kv.1 hs
    | null => simp at hu
    | jbool b => simp at hu
    | jnum n => simp at hu
    | jstr str => simp at hu
    | jarr xs => simp at hu

theorem parse_yaml_le (w : ExternalWorld) (fp source : String) (hs : source ≠ "")
    (us : List SemanticUnit) (h : parse_yaml w fp source = .ok us) :
    ∀ u ∈ us, u.start_line ≤ u.end_line := by
  unfold parse_yaml at h
  cases hyp : w.yaml_parse source with
  | error e => rw [hyp] at h; simp at h
  | ok parsed =>
    rw [hyp] at h
    injection h with h'
    intro u hu
    rw [← h'] at hu
    cases parsed with
    | ymap kvs =>
      obtain ⟨kv, _, hkv⟩ := List.mem_filterMap.mp hu
      cases hk : yamlKeyStr kv.1 with
      | none => rw [hk] at hkv; simp at hkv
      | some key =>
        rw [hk] at hkv
        injection hkv with h''
        rw [← h'']
        simpa [mkConfigUnit] using find_key_lines_le source key hs
    | ynull => simp at hu
    | ybool b => simp at hu
    | ynum n => simp at hu
    | ystr str => simp at hu
    | yseq xs => simp at hu

theorem parse_toml_le (w : ExternalWorld) (fp source : String) (hs : source ≠ "")
    (us : List SemanticUnit) (h : parse_toml w fp source = .ok us) :
    ∀ u ∈ us, u.start_line ≤ u.end_line := by
  unfold parse_toml at h
  cases htp : w.toml_parse source with
  | error e => rw [htp] at h; simp at h
  | ok parsed =>
    rw [htp] at h
    injection h with h'
    intro u hu
    rw [← h'] at hu
    cases parsed with
    | ttable kvs =>
      obtain ⟨kv, _, rfl⟩ := List.mem_map.mp hu
      simpa [mkConfigUnit] using find_key_lines_le source kv.1 hs
    | tstr str => simp at hu
    | tint n => simp at hu
    | tbool b => simp at hu
    | tarr xs => simp at hu

theorem parse_config_file_le (w : ExternalWorld) (fp source : String)
    (hs : source ≠ "") (res : ParseResult)
    (h : parse_config_file w fp source = .ok res) :
    ∀ u ∈ res.units, u.start_line ≤ u.end_line := by
  unfold parse_config_file at h
  split at h
  · simp at h
  · split at h
    · cases hpj : parse_json w fp source with
      | error e => rw [hpj] at h; simp at h
      | ok us =>
        rw [hpj] at h
        injection h with h'
        subst h'
        intro u hu
        exact parse_json_le w fp source hs us hpj u (by simpa [mkParseResult] using hu)
    · split at h
      · cases hpy : parse_yaml w fp source with
        | error e => rw [hpy] at h; simp at h
        | ok us =>
          rw [hpy] at h
          injection h with h'
          subst h'
          intro u hu
          exact parse_yaml_le w fp source hs us hpy u (by simpa [mkParseResult] using hu)
      · split at h
        · cases hpt : parse_toml w fp source with
          | error e => rw [hpt] at h; simp at h
          | ok us =>
            rw [hpt] at h
            injection h with h'
            subst h'
            intro u hu
            exact parse_toml_le w fp source hs us hpt u (by simpa [mkParseResult] using hu)
        · simp at h

theorem parse_file_le (w : ExternalWorld) (fp source : String)
    (hrows : ∀ (lang : SupportedLanguage) (ms : List TSMatch) (m : TSMatch) (node : TSNode),
      (w.fn_matches lang source = .ok ms ∨ w.cls_matches lang source = .ok ms) →
      m ∈ ms → node ∈ m.captures → node.start_row ≤ node.end_row)
    (res : ParseResult) (h : parse_file w fp source = .ok res) :
    ∀ u ∈ res.units, u.start_line ≤ u.end_line := by
  unfold parse_file at h
  split at h
  · simp at h
  · split at h
    · simp at h
    · next ext lang hfe =>
      split at h
      · injection h with h'
        subst h'
        intro u hu
        simp only [mkParseResult] at hu
        rcases List.mem_append.mp hu with h1 | h1
        · obtain ⟨ms, m, node, hres, hm, hc, hmk⟩ := mem_matchUnits _ _ _ _ h1
          obtain ⟨_, _, _, hsl, hel⟩ := mkUnitFromMatch_fields _ _ _ _ _ hc hmk
          rw [hsl, hel]
          have := hrows lang ms m node (Or.inl hres) hm (List.mem_of_mem_head? hc)
          omega
        · obtain ⟨ms, m, node, hres, hm, hc, hmk⟩ := mem_matchUnits _ _ _ _ h1
          obtain ⟨_, _, _, hsl, hel⟩ := mkUnitFromMatch_fields _ _ _ _ _ hc hmk
          rw [hsl, hel]
          have := hrows lang ms m node (Or.inr hres) hm (List.mem_of_mem_head? hc)
          omega
      · simp at h

theorem parse_source_file_le (w : ExternalWorld) (fp source : String)
    (hrows : ∀ (lang : SupportedLanguage) (ms : List TSMatch) (m : TSMatch) (node : TSNode),
      (w.fn_matches lang source = .ok ms ∨ w.cls_matches lang source = .ok ms) →
      m ∈ ms → node ∈ m.captures → node.start_row ≤ node.end_row)
    (hs : source ≠ "") (res : ParseResult)
    (h : parse_source_file w fp source = .ok res) :
    ∀ u ∈ res.units, u.start_line ≤ u.end_line := by
  unfold parse_source_file at h
  split at h
  · exact parse_config_file_le w fp source hs res h
  · exact parse_file_le w fp source hrows res h

/-- C7: every semantic unit produced by a successful
`parse_source_file` or `batch_parse_files` run satisfies
`start_line ≤ end_line`.  The hypotheses record what holds of every
real run: tree-sitter node spans are ordered, and a source text that
parses to a non-empty top-level container is non-empty. -/
theorem c7_line_span_invariant (w : ExternalWorld) (path source : String)
    (files : List (String × String))
    (hrows : ∀ (lang : SupportedLanguage) (src : String) (ms : List TSMatch)
        (m : TSMatch) (node : TSNode),
      (w.fn_matches lang src = .ok ms ∨ w.cls_matches lang src = .ok ms) →
      m ∈ ms → node ∈ m.captures → node.start_row ≤ node.end_row) :
    ((source ≠ "") → ∀ res, parse_source_file w path source = .ok res →
      ∀ u ∈ res.units, u.start_line ≤ u.end_line)
    ∧ ((∀ fc ∈ files, fc.2 ≠ "") → ∀ rs, batch_parse_files w files = .ok rs →
      ∀ r ∈ rs, ∀ u ∈ r.units, u.start_line ≤ u.end_line) := by
  constructor
  · intro hs res h
    exact parse_source_file_le w path source
      (fun lang ms m node => hrows lang source ms m node) hs res h
  · intro hfiles rs h r hr u hu
    unfold batch_parse_files at h
    obtain ⟨hlen, hget⟩ := collectResults_ok_get _ rs h
    obtain ⟨n, rfl⟩ := List.mem_iff_get.mp hr
    have h2 : n.1 < (files.map (fun fc => parse_source_file w fc.1 fc.2)).length := by
      rw [← hlen]; exact n.isLt
    have hok := hget n.1 h2 n.isLt
    rw [List.get_map] at hok
    have hfc : (files.get ⟨n.1, by simpa using h2⟩) ∈ files := List.get_mem files _ _
    exact parse_source_file_le w _ _
      (fun lang ms m node => hrows lang _ ms m node)
      (hfiles _ hfc) _ hok u hu

/-- C7 witness: a concrete one-unit YAML run, through
`c7_line_span_invariant`. -/
theorem c7_line_span_invariant_witness :
    c7unit.start_line ≤ c7unit.end_line := by
  have hrows : ∀ (lang : SupportedLanguage) (src : String) (ms : List TSMatch)
      (m : TSMatch) (node : TSNode),
      (wYaml7.fn_matches lang src = .ok ms ∨ wYaml7.cls_matches lang src = .ok ms) →
      m ∈ ms → node ∈ m.captures → node.start_row ≤ node.end_row := by
    intro lang src ms m node hms hm _
    rcases hms with hres | hres
    · have hms2 : ms = [] := by injection hres with h'; exact h'.symm
      subst hms2; cases hm
    · have hms2 : ms = [] := by injection hres with h'; exact h'.symm
      subst hms2; cases hm
  exact (c7_line_span_invariant wYaml7 "a.yaml" "a: 1" [] hrows).1 (by decide)
    (mkParseResult "a.yaml" "Yaml" [c7unit]) rfl c7unit (List.mem_singleton.mpr rfl)
